import Mathlib

/-!
Verification development for the signed-URL cache service of
`src/server.js` (book-backend).

The embedding translates the JavaScript source into Lean:
machine time is `Int` milliseconds since the epoch, TTLs are `Int`
seconds (as in the source), JSON stringify/parse of the cached response
envelope is modelled as the identity, and every exception that the
service catches is modelled with `Except`/`Option` made total at the
catch site.  The in-memory tier is the pinned dependency
`node-cache@^5.1.2`; its documented/observed `set` semantics with a
`maxKeys` ceiling (throw `ECACHEFULL`, store nothing, no eviction) are
embedded below.  The distributed tier is the optional `redis` client;
a connection is modelled by its readiness flag, per-operation failure
flags (a failing operation rejects and the service's `catch` handles
it), and its stored entries.
-/

/-- JS `String.prototype.startsWith` on character lists: `startsWithL s p`
is `true` when `p` is an initial segment of `s`. -/
def startsWithL : List Char → List Char → Bool
  | _, [] => true
  | [], _ :: _ => false
  | c :: s, p :: ps => c == p && startsWithL s ps

/-- JS `String.prototype.includes` on character lists: substring
containment, by scanning every suffix. -/
def includesL : List Char → List Char → Bool
  | [], pat => pat.isEmpty
  | c :: s, pat => startsWithL (c :: s) pat || includesL s pat

/-- JS `s.includes(pat)` on strings (used by the `/clear-cache` pattern
branch and to state the sanitizer invariant). -/
def jsIncludes (s pat : String) : Bool := includesL s.data pat.data

/-- The whitespace class stripped by JS `String.prototype.trim`
(principal members: space, tab, LF, CR, VT, FF, NBSP). -/
def isJsWhite (c : Char) : Bool :=
  c == ' ' || c == '\t' || c == '\n' || c == '\r' || c == '\x0b' ||
    c == '\x0c' || c == '\u00A0'

/-- Drop the trailing characters satisfying `p` (the right half of the
JS `trim` model). -/
def dropEndWhile (p : Char → Bool) : List Char → List Char
  | [] => []
  | c :: rest =>
      let r := dropEndWhile p rest
      if r.isEmpty && p c then [] else c :: r

/-- JS `String.prototype.trim` on character lists: strip leading and
trailing whitespace. -/
def jsTrimL (l : List Char) : List Char :=
  dropEndWhile isJsWhite (l.dropWhile isJsWhite)

/-- `file.replace(/\.\./g, '')`: delete the non-overlapping occurrences
of `".."`, scanning left to right, exactly as the JS global regex
replace does (the output is not rescanned). -/
def removeDotDot : List Char → List Char
  | [] => []
  | [c] => [c]
  | a :: b :: rest =>
      if a == '.' && b == '.' then removeDotDot rest
      else a :: removeDotDot (b :: rest)

/-- The path sanitizer `file.replace(/\.\./g, '').trim()` shared by the
`/getSignedUrl`, `/getIOSAudioUrl`, `/getBatchSignedUrls`,
`/getUploadUrl`, `/deleteFile` and `/invalidate-cache` handlers. -/
def sanitizeFile (f : String) : String := String.mk (jsTrimL (removeDotDot f.data))

/-- `CacheService.generateCacheKey(bucket, key, operation)`:
the template string `r2:OPERATION:BUCKET:KEY`. -/
def generateCacheKey (bucket key op : String) : String :=
  "r2:" ++ op ++ ":" ++ bucket ++ ":" ++ key

/-- No two adjacent dots occur in the list (sliding-window form); the
target invariant of the sanitizer. -/
def noTwoDots : List Char → Bool
  | [] => true
  | [_] => true
  | a :: b :: rest => !(a == '.' && b == '.') && noTwoDots (b :: rest)

/-- Association-list lookup (a JS object/`Map` property read). -/
def listGet {α : Type} (l : List (String × α)) (k : String) : Option α :=
  (l.find? (fun p => p.1 == k)).map (fun p => p.2)

/-- Association-list delete (removal of the binding of `k`). -/
def listErase {α : Type} (l : List (String × α)) (k : String) : List (String × α) :=
  l.filter (fun p => !(p.1 == k))

/-- Association-list update: any previous binding of `k` is replaced. -/
def listPut {α : Type} (l : List (String × α)) (k : String) (e : α) : List (String × α) :=
  listErase l k ++ [(k, e)]

theorem listGet_nil {α : Type} (k : String) : listGet ([] : List (String × α)) k = none := rfl

theorem listGet_cons {α : Type} (p : String × α) (l : List (String × α)) (k : String) :
    listGet (p :: l) k = if p.1 == k then some p.2 else listGet l k := by
  by_cases h : p.1 == k
  · simp [listGet, List.find?, h]
  · simp only [Bool.not_eq_true] at h
    simp [listGet, List.find?, h]

theorem listGet_append_of_none {α : Type} {l₁ : List (String × α)} {k : String}
    (l₂ : List (String × α)) (h : listGet l₁ k = none) :
    listGet (l₁ ++ l₂) k = listGet l₂ k := by
  induction l₁ with
  | nil => rfl
  | cons p l ih =>
      rw [listGet_cons] at h
      by_cases hp : p.1 == k
      · rw [if_pos hp] at h
        exact absurd h (by simp)
      · rw [if_neg hp] at h
        rw [List.cons_append, listGet_cons, if_neg hp]
        exact ih h

theorem listGet_append_of_some {α : Type} {l₁ : List (String × α)} {k : String} {v : α}
    (l₂ : List (String × α)) (h : listGet l₁ k = some v) :
    listGet (l₁ ++ l₂) k = some v := by
  induction l₁ with
  | nil => exact absurd h (by simp [listGet])
  | cons p l ih =>
      rw [listGet_cons] at h
      by_cases hp : p.1 == k
      · rw [if_pos hp] at h
        rw [List.cons_append, listGet_cons, if_pos hp]
        exact h
      · rw [if_neg hp] at h
        rw [List.cons_append, listGet_cons, if_neg hp]
        exact ih h

theorem listGet_listErase_self {α : Type} (l : List (String × α)) (k : String) :
    listGet (listErase l k) k = none := by
  induction l with
  | nil => rfl
  | cons p l ih =>
      by_cases h : p.1 == k
      · simpa [listErase, h] using ih
      · simp only [Bool.not_eq_true] at h
        simpa [listErase, listGet_cons, h] using ih

theorem listGet_listErase_ne {α : Type} (l : List (String × α)) (k k' : String)
    (h : (k' == k) = false) :
    listGet (listErase l k') k = listGet l k := by
  induction l with
  | nil => rfl
  | cons p l ih =>
      by_cases hp : p.1 == k'
      · have hpk : (p.1 == k) = false := by
          have h1 : p.1 = k' := by simpa [beq_iff_eq] using hp
          have h2 : ¬ k' = k := by simpa [beq_iff_eq] using h
          simpa [beq_iff_eq, h1] using h2
        have e1 : listErase (p :: l) k' = listErase l k' := by
          simp [listErase, hp]
        rw [e1, ih, listGet_cons, if_neg (by simp [hpk])]
      · simp only [Bool.not_eq_true] at hp
        have e1 : listErase (p :: l) k' = p :: listErase l k' := by
          simp [listErase, hp]
        rw [e1, listGet_cons, listGet_cons, ih]

theorem listGet_listPut_self {α : Type} (l : List (String × α)) (k : String) (e : α) :
    listGet (listPut l k e) k = some e := by
  rw [listPut, listGet_append_of_none _ (listGet_listErase_self l k), listGet_cons]
  simp

theorem listGet_listPut_ne {α : Type} (l : List (String × α)) (k k' : String) (e : α)
    (h : (k' == k) = false) :
    listGet (listPut l k' e) k = listGet l k := by
  cases hl : listGet l k with
  | none =>
      have h1 : listGet (listErase l k') k = none := by
        rw [listGet_listErase_ne l k k' h]; exact hl
      rw [listPut, listGet_append_of_none _ h1, listGet_cons, if_neg (by simp [h])]
      rfl
  | some v =>
      have h1 : listGet (listErase l k') k = some v := by
        rw [listGet_listErase_ne l k k' h]; exact hl
      rw [listPut, listGet_append_of_some _ h1]

theorem listErase_length_le {α : Type} (l : List (String × α)) (k : String) :
    (listErase l k).length ≤ l.length := by
  simpa [listErase] using List.length_filter_le (fun p => !(p.1 == k)) l

theorem listPut_length_le {α : Type} (l : List (String × α)) (k : String) (e : α) :
    (listPut l k e).length ≤ l.length + 1 := by
  have := listErase_length_le l k
  simp [listPut]
  omega

theorem listGet_eq_none_of_not_mem {α : Type} (l : List (String × α)) (k : String)
    (h : ¬ k ∈ l.map (fun p => p.1)) : listGet l k = none := by
  induction l with
  | nil => rfl
  | cons p l ih =>
      simp only [List.map_cons, List.mem_cons] at h
      push_neg at h
      have h1 : (p.1 == k) = false := by
        simpa [beq_iff_eq] using fun e => h.1 e.symm
      simp [listGet_cons, h1, ih h.2]

/-- One stored `node-cache` entry: the value and the absolute expiry
time `t` in ms produced by node-cache `_wrap` (`t = 0` encodes "no
expiry"). -/
structure NCEntry (V : Type) where
  val : V
  t : Int
deriving DecidableEq, Repr

/-- The in-memory tier: the `signedUrlCache` instance of
`node-cache@^5.1.2` — the stored entries, the monotonically accumulated
hit/miss counters of `getStats()`, and the configured `maxKeys` ceiling
(`-1` means unbounded; the server configures `MAX_CACHE_KEYS`). -/
structure NCState (V : Type) where
  data : List (String × NCEntry V)
  hits : Nat
  misses : Nat
  maxKeys : Int
deriving DecidableEq, Repr

/-- Direct view of the stored entry under `k` (not an operation of the
library; used to state theorems). -/
def ncLookup {V : Type} (c : NCState V) (k : String) : Option (NCEntry V) :=
  listGet c.data k

/-- The stored value under `k`, ignoring the expiry stamp. -/
def ncLookupVal {V : Type} (c : NCState V) (k : String) : Option V :=
  (ncLookup c k).map (fun e => e.val)

/-- node-cache `keys()`: the resident key listing (no expiry check). -/
def ncKeys {V : Type} (c : NCState V) : List String :=
  c.data.map (fun p => p.1)

/-- node-cache `del(key)`: remove the binding; counters untouched. -/
def ncDel {V : Type} (c : NCState V) (k : String) : NCState V :=
  { c with data := listErase c.data k }

/-- node-cache `_wrap`: a ttl in seconds becomes an absolute ms expiry;
a ttl of `0` means "never expires". -/
def ncWrapT (now ttl : Int) : Int := if ttl = 0 then 0 else now + ttl * 1000

/-- node-cache `get(key)`: a present entry with `t = 0` or `t ≥ now` is
a hit (hit counter bumped); a present but expired entry is deleted
(`deleteOnExpire` default) and counted as a miss; a missing key is a
miss. -/
def ncGet {V : Type} (now : Int) (c : NCState V) (k : String) : Option V × NCState V :=
  match ncLookup c k with
  | some e =>
      if e.t = 0 ∨ now ≤ e.t then (some e.val, { c with hits := c.hits + 1 })
      else (none, { c with data := listErase c.data k, misses := c.misses + 1 })
  | none => (none, { c with misses := c.misses + 1 })

/-- node-cache `set(key, value, ttl)` with a `maxKeys` ceiling: when the
cache already holds `maxKeys` keys the library throws `ECACHEFULL`
(modelled as `none`) and stores nothing — it does not evict.  Below the
ceiling the binding is replaced or added. -/
def ncSet {V : Type} (now : Int) (c : NCState V) (k : String) (v : V) (ttl : Int) :
    Option (NCState V) :=
  if c.maxKeys > -1 ∧ (c.data.length : Int) ≥ c.maxKeys then none
  else some { c with data := listPut c.data k ⟨v, ncWrapT now ttl⟩ }

/-- One Redis entry: the value and the absolute ms expiry fixed by
`setEx`. -/
structure RedisEntry (V : Type) where
  val : V
  expireAt : Int
deriving DecidableEq, Repr

/-- The optional distributed tier (`redisClient`).  `isReady` mirrors
`redisClient.isReady`; each `fail…` flag models a connection whose
corresponding operation kind rejects (the service catches every such
rejection).  `data` is the store content. -/
structure RedisState (V : Type) where
  isReady : Bool
  failGet : Bool
  failWrite : Bool
  failDel : Bool
  failPipeline : Bool
  data : List (String × RedisEntry V)
deriving DecidableEq, Repr

/-- `redisClient.get(key)`: reject when the connection fails reads; a
missing or lazily-expired key reads as `null`. -/
def redisGet {V : Type} (r : RedisState V) (now : Int) (k : String) :
    Except Unit (Option V) :=
  if r.failGet then Except.error ()
  else
    match listGet r.data k with
    | some e => if now < e.expireAt then Except.ok (some e.val) else Except.ok none
    | none => Except.ok none

/-- `redisClient.setEx(key, ttl, value)`. -/
def redisSetEx {V : Type} (r : RedisState V) (now : Int) (k : String) (v : V)
    (ttl : Int) : Except Unit (RedisState V) :=
  if r.failWrite then Except.error ()
  else Except.ok { r with data := listPut r.data k ⟨v, now + ttl * 1000⟩ }

/-- `redisClient.del(key)`. -/
def redisDel {V : Type} (r : RedisState V) (k : String) :
    Except Unit (RedisState V) :=
  if r.failDel then Except.error ()
  else Except.ok { r with data := listErase r.data k }

/-- The `multi()` pipeline of `setEx` commands followed by `exec()`: on
a pipeline failure the exec rejects and no command is applied. -/
def redisPipelineSetEx {V : Type} (r : RedisState V) (now : Int)
    (entries : List (String × V)) (ttl : Int) : Except Unit (RedisState V) :=
  if r.failPipeline then Except.error ()
  else Except.ok { r with
    data := entries.foldl (fun d kv => listPut d kv.1 ⟨kv.2, now + ttl * 1000⟩) r.data }

/-- `redisClient && redisClient.isReady`. -/
def redisReady {V : Type} : Option (RedisState V) → Bool
  | some r => r.isReady
  | none => false

/-- Direct view of the distributed store content (for theorems). -/
def redisLookup {V : Type} : Option (RedisState V) → String → Option (RedisEntry V)
  | some r, k => listGet r.data k
  | none, _ => none

/-- The stored distributed value under `k`, ignoring expiry. -/
def redisLookupVal {V : Type} (ro : Option (RedisState V)) (k : String) : Option V :=
  (redisLookup ro k).map (fun e => e.val)

/-- The memory-tier tail of `CacheService.get` (shared by every branch
that falls through the distributed tier): `signedUrlCache.get` and the
JS truthiness test on the value. -/
def cacheGetMem {V : Type} (truthy : V → Bool) (now : Int)
    (ro : Option (RedisState V)) (m : NCState V) (k : String) :
    Option V × Option (RedisState V) × NCState V :=
  match ncGet now m k with
  | (some w, m') => if truthy w then (some w, ro, m') else (none, ro, m')
  | (none, m') => (none, ro, m')

/-- `CacheService.get(cacheKey)`: Redis first when configured and ready
— a rejection from the client is caught and the whole read returns
`null` without consulting memory; a falsy Redis value falls through to
the memory tier.  `truthy` models JS truthiness of the cached value. -/
def cacheGet {V : Type} (truthy : V → Bool) (now : Int)
    (ro : Option (RedisState V)) (m : NCState V) (k : String) :
    Option V × Option (RedisState V) × NCState V :=
  match ro with
  | some r =>
      if r.isReady then
        match redisGet r now k with
        | Except.error _ => (none, some r, m)
        | Except.ok (some v) =>
            if truthy v then (some v, some r, m)
            else cacheGetMem truthy now (some r) m k
        | Except.ok none => cacheGetMem truthy now (some r) m k
      else cacheGetMem truthy now (some r) m k
  | none => cacheGetMem truthy now none m k

/-- `CacheService.set(cacheKey, value, ttl)`: Redis `setEx` when ready,
then the memory `set`, both inside one `try` — so a Redis rejection
skips the memory write, and an `ECACHEFULL` throw from the memory tier
is also swallowed.  The operation itself never throws to its caller. -/
def cacheSet {V : Type} (now : Int) (ro : Option (RedisState V)) (m : NCState V)
    (k : String) (v : V) (ttl : Int) : Option (RedisState V) × NCState V :=
  match ro with
  | some r =>
      if r.isReady then
        match redisSetEx r now k v ttl with
        | Except.error _ => (some r, m)
        | Except.ok r' =>
            match ncSet now m k v ttl with
            | some m' => (some r', m')
            | none => (some r', m)
      else
        match ncSet now m k v ttl with
        | some m' => (some r, m')
        | none => (some r, m)
  | none =>
      match ncSet now m k v ttl with
      | some m' => (none, m')
      | none => (none, m)

/-- The `entries.forEach(… set …)` loop over the memory tier inside the
`try` of `CacheService.setBatch`: the first `ECACHEFULL` throw aborts
the loop, keeping the writes already made (returned in the error). -/
def ncSetAll {V : Type} (now ttl : Int) (m : NCState V) :
    List (String × V) → Except (NCState V) (NCState V)
  | [] => Except.ok m
  | kv :: rest =>
      match ncSet now m kv.1 kv.2 ttl with
      | none => Except.error m
      | some m' => ncSetAll now ttl m' rest

/-- The `catch` fallback of `CacheService.setBatch`: sequential
per-entry `CacheService.set` over all entries. -/
def cacheSetFallback {V : Type} (now ttl : Int)
    (s : Option (RedisState V) × NCState V) (entries : List (String × V)) :
    Option (RedisState V) × NCState V :=
  entries.foldl (fun s kv => cacheSet now s.1 s.2 kv.1 kv.2 ttl) s

/-- `CacheService.setBatch(entries, ttl)`: pipeline every entry to Redis
when ready and the batch is nonempty, then `forEach` into the memory
tier; any throw (pipeline exec or `ECACHEFULL`) lands in the `catch`,
which falls back to per-entry `CacheService.set` over all entries. -/
def cacheSetBatch {V : Type} (now : Int) (ro : Option (RedisState V))
    (m : NCState V) (entries : List (String × V)) (ttl : Int) :
    Option (RedisState V) × NCState V :=
  match ro with
  | some r =>
      if r.isReady ∧ 0 < entries.length then
        match redisPipelineSetEx r now entries ttl with
        | Except.error _ => cacheSetFallback now ttl (some r, m) entries
        | Except.ok r' =>
            match ncSetAll now ttl m entries with
            | Except.ok m' => (some r', m')
            | Except.error mp => cacheSetFallback now ttl (some r', mp) entries
      else
        match ncSetAll now ttl m entries with
        | Except.ok m' => (some r, m')
        | Except.error mp => cacheSetFallback now ttl (some r, mp) entries
  | none =>
      match ncSetAll now ttl m entries with
      | Except.ok m' => (none, m')
      | Except.error mp => cacheSetFallback now ttl (none, mp) entries

/-- `CacheService.del(cacheKey)`: Redis `del` when ready, then the
memory `del`, both inside one `try` — a Redis rejection skips the
memory delete; the operation never throws to its caller. -/
def cacheDel {V : Type} (ro : Option (RedisState V)) (m : NCState V) (k : String) :
    Option (RedisState V) × NCState V :=
  match ro with
  | some r =>
      if r.isReady then
        match redisDel r k with
        | Except.error _ => (some r, m)
        | Except.ok r' => (some r', ncDel m k)
      else (some r, ncDel m k)
  | none => (none, ncDel m k)

/-- The value shape of `CacheService.getStats()`. -/
structure ServiceStats where
  memKeys : Nat
  memHits : Nat
  memMisses : Nat
  memHitRate : ℚ
  redis : String
deriving DecidableEq, Repr

/-- `CacheService.getStats()`: the memory counters plus
`hits / (hits + misses) || 0` — the JS `|| 0` turns the `0/0 = NaN`
case into `0` — and the distributed connection status string. -/
def getStats {V : Type} (ro : Option (RedisState V)) (m : NCState V) : ServiceStats :=
  { memKeys := m.data.length
    memHits := m.hits
    memMisses := m.misses
    memHitRate :=
      if m.hits + m.misses = 0 then 0
      else (m.hits : ℚ) / ((m.hits : ℚ) + (m.misses : ℚ))
    redis := if redisReady ro then "connected" else "disconnected" }

/-- The `pattern` branch of `POST /clear-cache`: filter the memory-tier
key listing by JS substring containment, delete each match from the
memory tier, and report the number of matches. -/
def clearCachePattern {V : Type} (m : NCState V) (pat : String) : NCState V × Nat :=
  ((((ncKeys m).filter (fun k => jsIncludes k pat)).foldl (fun c k => ncDel c k) m),
    ((ncKeys m).filter (fun k => jsIncludes k pat)).length)

/-- Process-wide configuration, read once at startup from the
environment: `CACHE_TTL_SECONDS` (default 3600), 
`SIGNED_URL_EXPIRY_SECONDS` (default 7200), and the `R2_BUCKET` name. -/
structure Config where
  cacheTTL : Int
  signedUrlExpiry : Int
  bucket : String
deriving DecidableEq, Repr

/-- The default configuration of `src/server.js` when the environment
sets no overrides (bucket name illustrative). -/
def defaultConfig : Config := { cacheTTL := 3600, signedUrlExpiry := 7200, bucket := "books" }

/-- The 5-minute pre-expiry safety buffer (`bufferTime = 5 * 60 * 1000`). -/
def bufferMs : Int := 5 * 60 * 1000

/-- The response envelope built by `GET /getSignedUrl` and stored (JSON
encoded; the round trip is modelled as the identity) in both cache
tiers.  `expiresAt` is the ms timestamp denoted by the stored ISO
string.  The transient `cacheKey` field the handler adds to a hit
response is not part of the envelope. -/
structure SResp where
  success : Bool
  signedUrl : String
  file : String
  contentType : String
  expiresIn : Int
  expiresAt : Int
  fromCache : Bool
deriving DecidableEq, Repr

/-- `file.split('.').pop()?.toLowerCase()`. -/
def extOf (file : String) : String := ((file.splitOn ".").getLastD "").toLower

/-- The extension switch of `GET /getSignedUrl` choosing the response
content type (`if (fileExtension)` skips the switch on the falsy empty
string). -/
def contentTypeFor (file : String) : String :=
  if extOf file == "" then "application/octet-stream"
  else if extOf file == "mp3" then "audio/mpeg"
  else if extOf file == "m4a" then "audio/mp4"
  else if extOf file == "aac" then "audio/aac"
  else if extOf file == "wav" then "audio/wav"
  else if extOf file == "jpg" || extOf file == "jpeg" then "image/jpeg"
  else if extOf file == "png" then "image/png"
  else "application/octet-stream"

/-- The expiry instant the storage-signing primitive signs for when it
is invoked at `now` with an `expiresIn`-second window (AWS-style
presigning: the validity window starts at the signing instant).  This is
"the expiry window the primitive signs for" in the spec's sense. -/
def signPrimitiveExpiry (now expiresIn : Int) : Int := now + expiresIn * 1000

/-- Lines 371–391 of `GET /getSignedUrl` in `src/server.js`: consult
`CacheService.get`, then apply the 5-minute safety-buffer freshness
check `Date.now() < expiryTime - bufferTime`; a fresh hit is returned
with `fromCache` overwritten to `true`; a stale entry is removed via
`CacheService.del` and the read reports a miss. -/
def readSignedUrlCachePath (now : Int) (ro : Option (RedisState SResp))
    (m : NCState SResp) (key : String) :
    Option SResp × Option (RedisState SResp) × NCState SResp :=
  match cacheGet (fun _ => true) now ro m key with
  | (some cached, ro1, m1) =>
      if now < cached.expiresAt - bufferMs then
        (some { cached with fromCache := true }, ro1, m1)
      else
        match cacheDel ro1 m1 key with
        | (ro2, m2) => (none, ro2, m2)
  | (none, ro1, m1) => (none, ro1, m1)

/-- Lines 393–443 of `GET /getSignedUrl`: the miss path — invoke the
signing primitive (`sign now expiresIn key` is the opaque URL it
returns) with `expiresIn = SIGNED_URL_EXPIRY`, build the response with
`expiresAt = Date.now() + SIGNED_URL_EXPIRY · 1000` and
`fromCache = false`, cache it under the cache TTL via
`CacheService.set`, and return it. -/
def getSignedUrlMissPath (cfg : Config) (sign : Int → Int → String → String)
    (now : Int) (ro : Option (RedisState SResp)) (m : NCState SResp)
    (san key : String) : SResp × Option (RedisState SResp) × NCState SResp :=
  match cacheSet now ro m key
      { success := true
        signedUrl := sign now cfg.signedUrlExpiry san
        file := san
        contentType := contentTypeFor san
        expiresIn := cfg.signedUrlExpiry
        expiresAt := now + cfg.signedUrlExpiry * 1000
        fromCache := false } cfg.cacheTTL with
  | (ro', m') =>
      ({ success := true
         signedUrl := sign now cfg.signedUrlExpiry san
         file := san
         contentType := contentTypeFor san
         expiresIn := cfg.signedUrlExpiry
         expiresAt := now + cfg.signedUrlExpiry * 1000
         fromCache := false }, ro', m')

/-- The whole `GET /getSignedUrl` handler after parameter validation:
sanitize, derive the cache key, try the cached read path, fall back to
the issuance miss path. -/
def getSignedUrlHandler (cfg : Config) (sign : Int → Int → String → String)
    (now : Int) (ro : Option (RedisState SResp)) (m : NCState SResp)
    (file : String) : SResp × Option (RedisState SResp) × NCState SResp :=
  match readSignedUrlCachePath now ro m
      (generateCacheKey cfg.bucket (sanitizeFile file) "get") with
  | (some resp, ro', m') => (resp, ro', m')
  | (none, ro', m') =>
      getSignedUrlMissPath cfg sign now ro' m' (sanitizeFile file)
        (generateCacheKey cfg.bucket (sanitizeFile file) "get")

/-- The cache-invalidation step of `DELETE /deleteFile` (lines 839–858)
performed after the storage delete succeeded and before the success
response: drop the `get` cache entry of the sanitized path from both
tiers via `CacheService.del`. -/
def deleteFileInvalidate (bucket : String) (ro : Option (RedisState SResp))
    (m : NCState SResp) (file : String) :
    Option (RedisState SResp) × NCState SResp :=
  cacheDel ro m (generateCacheKey bucket (sanitizeFile file) "get")

/-- The configured distributed tier is connected and its delete
operation does not reject — the healthy-environment assumption under
which a `CacheService.del` reaches both tiers. -/
def redisDelHealthy {V : Type} : Option (RedisState V) → Bool
  | none => true
  | some r => r.isReady && !r.failDel

theorem ncLookup_ncDel {V : Type} (c : NCState V) (k' k : String) :
    ncLookup (ncDel c k') k = if k' = k then none else ncLookup c k := by
  by_cases h : k' = k
  · subst h
    simp [ncLookup, ncDel, listGet_listErase_self]
  · rw [if_neg h]
    exact listGet_listErase_ne c.data k k' (by simpa [beq_eq_false_iff_ne] using h)

theorem ncLookup_foldDel {V : Type} (ks : List String) (c : NCState V) (k : String) :
    ncLookup (ks.foldl (fun c k => ncDel c k) c) k =
      if k ∈ ks then none else ncLookup c k := by
  induction ks generalizing c with
  | nil => simp
  | cons k' ks ih =>
      rw [List.foldl_cons, ih]
      by_cases hk : k ∈ ks
      · simp [hk]
      · by_cases he : k' = k
        · subst he
          simp [hk, ncLookup_ncDel]
        · have hne : ¬ k = k' := fun h => he h.symm
          have : ¬ k ∈ k' :: ks := by
            simp [List.mem_cons, hk, hne]
          simp [hk, this, ncLookup_ncDel, he]

theorem foldDel_counters {V : Type} (ks : List String) (c : NCState V) :
    (ks.foldl (fun c k => ncDel c k) c).hits = c.hits ∧
    (ks.foldl (fun c k => ncDel c k) c).misses = c.misses := by
  induction ks generalizing c with
  | nil => exact ⟨rfl, rfl⟩
  | cons k' ks ih => simpa [ncDel] using ih (ncDel c k')

/-- C4: the `POST /clear-cache` pattern branch deletes exactly the
resident memory-tier keys containing the pattern as a JS substring
(every such key reads as absent afterwards), returns the count of
matching resident keys, and leaves every non-matching key and the
hit/miss counters untouched. -/
theorem claim_C4_pattern_invalidation {V : Type} (m : NCState V) (pat : String) :
    (∀ k, jsIncludes k pat = true → ncLookup (clearCachePattern m pat).1 k = none) ∧
    (∀ k, jsIncludes k pat = false →
      ncLookup (clearCachePattern m pat).1 k = ncLookup m k) ∧
    (clearCachePattern m pat).2 =
      ((ncKeys m).filter (fun k => jsIncludes k pat)).length ∧
    (clearCachePattern m pat).1.hits = m.hits ∧
    (clearCachePattern m pat).1.misses = m.misses := by
  refine ⟨?_, ?_, rfl, ?_, ?_⟩
  · intro k hk
    show ncLookup (((ncKeys m).filter (fun k => jsIncludes k pat)).foldl
      (fun c k => ncDel c k) m) k = none
    rw [ncLookup_foldDel]
    by_cases hmem : k ∈ (ncKeys m).filter (fun k => jsIncludes k pat)
    · simp [hmem]
    · rw [if_neg hmem]
      have hk2 : ¬ k ∈ ncKeys m := by
        intro hin
        exact hmem (List.mem_filter.2 ⟨hin, hk⟩)
      exact listGet_eq_none_of_not_mem m.data k hk2
  · intro k hk
    show ncLookup (((ncKeys m).filter (fun k => jsIncludes k pat)).foldl
      (fun c k => ncDel c k) m) k = ncLookup m k
    rw [ncLookup_foldDel]
    have hmem : ¬ k ∈ (ncKeys m).filter (fun k => jsIncludes k pat) := by
      intro hin
      have := (List.mem_filter.1 hin).2
      rw [hk] at this
      cases this
    rw [if_neg hmem]
  · exact (foldDel_counters _ m).1
  · exact (foldDel_counters _ m).2

/-- C4 witness: the pattern theorem applied at a two-key memory tier
and the pattern `"books/x"`, checking the deleted key, one untouched
key, and the reported count. -/
theorem claim_C4_pattern_invalidation_witness :
    ncLookup (clearCachePattern
      (⟨[("r2:get:b:books/x.jpg", ⟨"u1", 0⟩), ("r2:get:b:books/y.jpg", ⟨"u2", 0⟩)],
        0, 0, 5000⟩ : NCState String) "books/x").1 "r2:get:b:books/x.jpg" = none ∧
    ncLookup (clearCachePattern
      (⟨[("r2:get:b:books/x.jpg", ⟨"u1", 0⟩), ("r2:get:b:books/y.jpg", ⟨"u2", 0⟩)],
        0, 0, 5000⟩ : NCState String) "books/x").1 "r2:get:b:books/y.jpg" =
      some ⟨"u2", 0⟩ ∧
    (clearCachePattern
      (⟨[("r2:get:b:books/x.jpg", ⟨"u1", 0⟩), ("r2:get:b:books/y.jpg", ⟨"u2", 0⟩)],
        0, 0, 5000⟩ : NCState String) "books/x").2 = 1 := by
  refine ⟨?_, ?_, ?_⟩
  · exact (claim_C4_pattern_invalidation _ "books/x").1 "r2:get:b:books/x.jpg" (by decide)
  · have h2 := (claim_C4_pattern_invalidation
      (⟨[("r2:get:b:books/x.jpg", ⟨"u1", 0⟩), ("r2:get:b:books/y.jpg", ⟨"u2", 0⟩)],
        0, 0, 5000⟩ : NCState String) "books/x").2.1 "r2:get:b:books/y.jpg" (by decide)
    rw [h2]
    decide
  · rw [(claim_C4_pattern_invalidation _ "books/x").2.2.1]
    decide

/-- C6: for every process history with `H` accumulated memory-tier hits
and `M` accumulated misses, `CacheService.getStats()` reports
`hitRate = H / (H + M)` whenever a lookup has happened, and reports
exactly `0` when `H = M = 0` (the JS `|| 0` absorbs the `0/0` NaN, so
no division error occurs). -/
theorem claim_C6_hit_rate {V : Type} (ro : Option (RedisState V)) (m : NCState V) :
    (m.hits + m.misses ≠ 0 →
      (getStats ro m).memHitRate = (m.hits : ℚ) / ((m.hits : ℚ) + (m.misses : ℚ))) ∧
    (m.hits = 0 → m.misses = 0 → (getStats ro m).memHitRate = 0) := by
  constructor
  · intro h
    simp [getStats, h]
  · intro h1 h2
    simp [getStats, h1, h2]

/-- C6 witness: the statistics theorem applied at a history of 3 hits
and 1 miss, and at the empty history. -/
theorem claim_C6_hit_rate_witness :
    (getStats (none : Option (RedisState String)) ⟨[], 3, 1, 5000⟩).memHitRate =
      (3 : ℚ) / ((3 : ℚ) + (1 : ℚ)) ∧
    (getStats (none : Option (RedisState String)) ⟨[], 0, 0, 5000⟩).memHitRate = 0 :=
  ⟨(claim_C6_hit_rate none ⟨[], 3, 1, 5000⟩).1 (by decide),
   (claim_C6_hit_rate none ⟨[], 0, 0, 5000⟩).2 rfl rfl⟩

theorem ncSet_eq_some {V : Type} {now : Int} {c : NCState V} {k : String} {v : V}
    {ttl : Int} {c' : NCState V} (h : ncSet now c k v ttl = some c') :
    ¬ (c.maxKeys > -1 ∧ (c.data.length : Int) ≥ c.maxKeys) ∧
    c' = { c with data := listPut c.data k ⟨v, ncWrapT now ttl⟩ } := by
  by_cases hg : c.maxKeys > -1 ∧ (c.data.length : Int) ≥ c.maxKeys
  · rw [ncSet, if_pos hg] at h
    cases h
  · rw [ncSet, if_neg hg] at h
    exact ⟨hg, (Option.some_inj.1 h).symm⟩

theorem cacheSet_mem_of_ncSet_none {V : Type} {now : Int} (ro : Option (RedisState V))
    {m : NCState V} {k : String} {v : V} {ttl : Int}
    (h : ncSet now m k v ttl = none) :
    (cacheSet now ro m k v ttl).2 = m := by
  match ro with
  | none => simp [cacheSet, h]
  | some r =>
      by_cases hr : r.isReady
      · cases hw : redisSetEx r now k v ttl with
        | error e => simp [cacheSet, hr, hw]
        | ok r' => simp [cacheSet, hr, hw, h]
      · simp [cacheSet, hr, h]

theorem cacheSet_mem_cases {V : Type} (now : Int) (ro : Option (RedisState V))
    (m : NCState V) (k : String) (v : V) (ttl : Int) :
    (cacheSet now ro m k v ttl).2 = m ∨
    (ncSet now m k v ttl = some ((cacheSet now ro m k v ttl).2)) := by
  cases hs : ncSet now m k v ttl with
  | none => exact Or.inl (cacheSet_mem_of_ncSet_none ro hs)
  | some m' =>
      match ro with
      | none => right; simp [cacheSet, hs]
      | some r =>
          by_cases hr : r.isReady
          · cases hw : redisSetEx r now k v ttl with
            | error e => left; simp [cacheSet, hr, hw]
            | ok r' => right; simp [cacheSet, hr, hw, hs]
          · right; simp [cacheSet, hr, hs]

/-- C5 counterexample: with a ceiling of 1 key and one resident entry, a
service write of a fresh key stores nothing — node-cache throws
`ECACHEFULL` instead of evicting, the service swallows the throw, the
new entry is absent afterwards and the old entry is still resident.
This contradicts the claim that eviction makes room and the insertion
proceeds. -/
theorem claim_C5_ceiling_counterexample :
    ncLookupVal ((cacheSet 0 (none : Option (RedisState String))
        ⟨[("a", ⟨"va", 0⟩)], 0, 0, 1⟩ "b" "vb" 3600).2) "b" = none ∧
    ncLookupVal ((cacheSet 0 (none : Option (RedisState String))
        ⟨[("a", ⟨"va", 0⟩)], 0, 0, 1⟩ "b" "vb" 3600).2) "a" = some "va" := by
  constructor <;> decide

/-- C5 amended: the memory tier never exceeds the configured `maxKeys`
ceiling — a service write from a within-ceiling state stays within the
ceiling — but a write arriving at (or beyond) the ceiling leaves the
memory tier completely unchanged: nothing is stored and nothing is
evicted (node-cache throws `ECACHEFULL`, which `CacheService.set`
swallows, so no error reaches the caller — `cacheSet` is total). -/
theorem claim_C5_ceiling_amended {V : Type} (now : Int) (ro : Option (RedisState V))
    (m : NCState V) (k : String) (v : V) (ttl : Int)
    (hin : m.maxKeys > -1 → (m.data.length : Int) ≤ m.maxKeys) :
    (m.maxKeys > -1 → (((cacheSet now ro m k v ttl).2).data.length : Int) ≤ m.maxKeys) ∧
    (m.maxKeys > -1 → (m.data.length : Int) ≥ m.maxKeys →
      (cacheSet now ro m k v ttl).2 = m) := by
  constructor
  · intro hmk
    rcases cacheSet_mem_cases now ro m k v ttl with h | h
    · rw [h]
      exact hin hmk
    · rcases ncSet_eq_some h with ⟨hguard, heq⟩
      have hlt : (m.data.length : Int) < m.maxKeys := by
        by_contra hge
        exact hguard ⟨hmk, by omega⟩
      have hlen : ((cacheSet now ro m k v ttl).2).data.length ≤ m.data.length + 1 := by
        rw [heq]
        exact listPut_length_le m.data k _
      omega
  · intro hmk hge
    exact cacheSet_mem_of_ncSet_none ro (by rw [ncSet, if_pos ⟨hmk, hge⟩])

/-- C5 witness: the amended ceiling theorem applied at a full one-slot
cache receiving a new key. -/
theorem claim_C5_ceiling_amended_witness :
    ((((cacheSet 0 (none : Option (RedisState String))
        ⟨[("a", ⟨"va", 0⟩)], 0, 0, 1⟩ "b" "vb" 3600).2).data.length : Int) ≤ 1) ∧
    ((cacheSet 0 (none : Option (RedisState String))
        ⟨[("a", ⟨"va", 0⟩)], 0, 0, 1⟩ "b" "vb" 3600).2 =
        ⟨[("a", ⟨"va", 0⟩)], 0, 0, 1⟩) := by
  have h := claim_C5_ceiling_amended 0 (none : Option (RedisState String))
    ⟨[("a", ⟨"va", 0⟩)], 0, 0, 1⟩ "b" "vb" 3600 (fun _ => by decide)
  exact ⟨h.1 (by decide), h.2 (by decide) (by decide)⟩

/-- The distributed tier is absent, not ready, or accepts writes: the
states in which a `CacheService.set` reaches the memory write. -/
def redisWriteOk {V : Type} : Option (RedisState V) → Bool
  | none => true
  | some r => !r.isReady || !r.failWrite

/-- The distributed tier is connected but its write rejects. -/
def redisWriteFails {V : Type} : Option (RedisState V) → Bool
  | none => false
  | some r => r.isReady && r.failWrite

/-- C2 counterexample: the distributed tier is configured, ready, and
its write rejects.  `CacheService.set` swallows the rejection, but the
memory write sits after the Redis write inside the same `try`, so the
local tier does not hold the entry afterwards — refuting the claim that
every write lands unconditionally in the local tier even when the
distributed write fails. -/
theorem claim_C2_write_counterexample :
    ncLookupVal ((cacheSet 0
      (some ⟨true, false, true, false, false, []⟩ : Option (RedisState String))
      ⟨[], 0, 0, 5000⟩ "k" "v" 3600).2) "k" = none := by decide

/-- C2 amended: a service write never throws to its caller (`cacheSet`
is total); when the distributed tier is absent, not ready, or its write
succeeds — and the memory tier is below its key ceiling — the local
tier holds the entry afterwards; but when the distributed tier is
connected and its write rejects, the whole memory write is skipped and
the memory tier is left exactly as it was. -/
theorem claim_C2_write_amended {V : Type} (now : Int) (ro : Option (RedisState V))
    (m : NCState V) (k : String) (v : V) (ttl : Int) :
    (redisWriteOk ro = true → ¬ (m.maxKeys > -1 ∧ (m.data.length : Int) ≥ m.maxKeys) →
      ncLookupVal (cacheSet now ro m k v ttl).2 k = some v) ∧
    (redisWriteFails ro = true → (cacheSet now ro m k v ttl).2 = m) := by
  constructor
  · intro hok hcap
    have hset : ncSet now m k v ttl =
        some { m with data := listPut m.data k ⟨v, ncWrapT now ttl⟩ } := by
      rw [ncSet, if_neg hcap]
    have hgoal : ncLookupVal
        ({ m with data := listPut m.data k ⟨v, ncWrapT now ttl⟩ } : NCState V) k =
        some v := by
      simp [ncLookupVal, ncLookup, listGet_listPut_self]
    match ro, hok with
    | none, _ =>
        simpa [cacheSet, hset] using hgoal
    | some r, hok =>
        by_cases hr : r.isReady
        · have hfw : r.failWrite = false := by
            have := hok
            simp [redisWriteOk, hr] at this
            simpa using this
          cases hw : redisSetEx r now k v ttl with
          | error e =>
              rw [redisSetEx, if_neg (by simp [hfw])] at hw
              cases hw
          | ok r' => simpa [cacheSet, hr, hw, hset] using hgoal
        · have hr2 : r.isReady = false := by simpa using hr
          simpa [cacheSet, hr2, hset] using hgoal
  · intro hfail
    match ro, hfail with
    | some r, hfail =>
        have h1 : r.isReady = true := by
          simp [redisWriteFails] at hfail
          exact hfail.1
        have h2 : r.failWrite = true := by
          simp [redisWriteFails] at hfail
          exact hfail.2
        simp [cacheSet, h1, redisSetEx, h2]

/-- C2 witness: the amended write theorem applied with an absent
distributed tier (local write succeeds) and with a ready-but-rejecting
distributed tier (memory untouched). -/
theorem claim_C2_write_amended_witness :
    ncLookupVal ((cacheSet 0 (none : Option (RedisState String))
      ⟨[], 0, 0, 5000⟩ "k" "v" 3600).2) "k" = some "v" ∧
    (cacheSet 0
      (some ⟨true, false, true, false, false, []⟩ : Option (RedisState String))
      ⟨[], 0, 0, 5000⟩ "k" "v" 3600).2 = ⟨[], 0, 0, 5000⟩ :=
  ⟨(claim_C2_write_amended 0 none ⟨[], 0, 0, 5000⟩ "k" "v" 3600).1 (by decide)
      (by decide),
   (claim_C2_write_amended 0 (some ⟨true, false, true, false, false, []⟩)
      ⟨[], 0, 0, 5000⟩ "k" "v" 3600).2 (by decide)⟩

theorem cacheGetMem_redis_id {V : Type} (t : V → Bool) (now : Int)
    (ro : Option (RedisState V)) (m : NCState V) (k : String) :
    (cacheGetMem t now ro m k).2.1 = ro := by
  rcases h : ncGet now m k with ⟨w, m'⟩
  cases w with
  | none => simp [cacheGetMem, h]
  | some v =>
      by_cases ht : t v
      · simp [cacheGetMem, h, ht]
      · simp [cacheGetMem, h, ht]

theorem cacheGet_redis_id {V : Type} (t : V → Bool) (now : Int)
    (ro : Option (RedisState V)) (m : NCState V) (k : String) :
    (cacheGet t now ro m k).2.1 = ro := by
  match ro with
  | none => simpa [cacheGet] using cacheGetMem_redis_id t now none m k
  | some r =>
      by_cases hr : r.isReady
      · cases hg : redisGet r now k with
        | error e => simp [cacheGet, hr, hg]
        | ok ov =>
            cases ov with
            | none =>
                simpa [cacheGet, hr, hg] using cacheGetMem_redis_id t now (some r) m k
            | some v =>
                by_cases ht : t v
                · simp [cacheGet, hr, hg, ht]
                · simpa [cacheGet, hr, hg, ht] using
                    cacheGetMem_redis_id t now (some r) m k
      · simpa [cacheGet, hr] using cacheGetMem_redis_id t now (some r) m k

theorem cacheDel_mem_healthy {V : Type} (ro : Option (RedisState V)) (m : NCState V)
    (k : String) (h : redisDelHealthy ro = true) :
    ncLookup (cacheDel ro m k).2 k = none := by
  match ro, h with
  | none, _ => simp [cacheDel, ncLookup_ncDel]
  | some r, h =>
      have h1 : r.isReady = true := by
        simp [redisDelHealthy] at h
        exact h.1
      have h2 : r.failDel = false := by
        simp [redisDelHealthy] at h
        exact h.2
      simp [cacheDel, h1, redisDel, h2, ncLookup_ncDel]

theorem cacheDel_redis_healthy {V : Type} (ro : Option (RedisState V)) (m : NCState V)
    (k : String) (h : redisDelHealthy ro = true) :
    redisLookup (cacheDel ro m k).1 k = none := by
  match ro, h with
  | none, _ => simp [cacheDel, redisLookup]
  | some r, h =>
      have h1 : r.isReady = true := by
        simp [redisDelHealthy] at h
        exact h.1
      have h2 : r.failDel = false := by
        simp [redisDelHealthy] at h
        exact h.2
      simp [cacheDel, h1, redisDel, h2, redisLookup, listGet_listErase_self]

theorem cacheDel_mem_ne {V : Type} (ro : Option (RedisState V)) (m : NCState V)
    (k k' : String) (h : ¬ k = k') :
    ncLookup (cacheDel ro m k).2 k' = ncLookup m k' := by
  have hd : ncLookup (ncDel m k) k' = ncLookup m k' := by
    rw [ncLookup_ncDel, if_neg h]
  match ro with
  | none => simpa [cacheDel] using hd
  | some r =>
      by_cases hr : r.isReady
      · by_cases hf : r.failDel
        · simp [cacheDel, hr, redisDel, hf]
        · simpa [cacheDel, hr, redisDel, hf] using hd
      · simpa [cacheDel, hr] using hd

theorem cacheDel_redis_ne {V : Type} (ro : Option (RedisState V)) (m : NCState V)
    (k k' : String) (h : ¬ k = k') :
    redisLookup (cacheDel ro m k).1 k' = redisLookup ro k' := by
  match ro with
  | none => simp [cacheDel, redisLookup]
  | some r =>
      by_cases hr : r.isReady
      · by_cases hf : r.failDel
        · simp [cacheDel, hr, redisDel, hf]
        · have hbe : (k == k') = false := by
            simpa [beq_eq_false_iff_ne] using h
          simp [cacheDel, hr, redisDel, hf, redisLookup]
          exact listGet_listErase_ne r.data k' k hbe
      · simp [cacheDel, hr]

theorem cacheGet_miss_of_absent {V : Type} (t : V → Bool) (now : Int)
    (ro : Option (RedisState V)) (m : NCState V) (k : String)
    (hm : ncLookup m k = none) (hro : redisLookup ro k = none) :
    (cacheGet t now ro m k).1 = none := by
  have hmem : (cacheGetMem t now ro m k).1 = none := by
    simp [cacheGetMem, ncGet, hm]
  match ro with
  | none => simpa [cacheGet] using hmem
  | some r =>
      by_cases hr : r.isReady
      · by_cases hg : r.failGet
        · simp [cacheGet, hr, redisGet, hg]
        · have hdata : listGet r.data k = none := hro
          simpa [cacheGet, hr, redisGet, hg, hdata] using hmem
      · simpa [cacheGet, hr] using hmem

/-- C1: whenever the `GET /getSignedUrl` read path consults a cached
entry, the entry is served as a hit exactly when its remaining validity
`expiresAt − now` strictly exceeds the 5-minute safety buffer;
otherwise the read reports a miss and the entry is removed from both
cache tiers as a side effect (stated for a distributed tier that is
absent, or connected with a delete that does not reject). -/
theorem claim_C1_read_freshness (now : Int) (ro : Option (RedisState SResp))
    (m : NCState SResp) (key : String) (cached : SResp)
    (hconsult : (cacheGet (fun _ => true) now ro m key).1 = some cached)
    (hdel : redisDelHealthy ro = true) :
    (cached.expiresAt - now ≤ bufferMs →
      (readSignedUrlCachePath now ro m key).1 = none ∧
      ncLookup (readSignedUrlCachePath now ro m key).2.2 key = none ∧
      redisLookup (readSignedUrlCachePath now ro m key).2.1 key = none) ∧
    (bufferMs < cached.expiresAt - now →
      (readSignedUrlCachePath now ro m key).1 =
        some { cached with fromCache := true }) := by
  rcases hget : cacheGet (fun _ => true) now ro m key with ⟨res, ro1, m1⟩
  have hro1 : ro1 = ro := by
    have hid := cacheGet_redis_id (fun _ => true) now ro m key
    rw [hget] at hid
    exact hid
  rw [hget] at hconsult
  have hres : res = some cached := hconsult
  subst hres
  rw [hro1] at hget
  constructor
  · intro hstale
    have hcond : ¬ now < cached.expiresAt - bufferMs := by omega
    have hpath : readSignedUrlCachePath now ro m key =
        (none, (cacheDel ro m1 key).1, (cacheDel ro m1 key).2) := by
      simp only [readSignedUrlCachePath, hget, if_neg hcond]
    rw [hpath]
    exact ⟨rfl, cacheDel_mem_healthy ro m1 key hdel,
      cacheDel_redis_healthy ro m1 key hdel⟩
  · intro hfresh
    have hcond : now < cached.expiresAt - bufferMs := by omega
    simp only [readSignedUrlCachePath, hget, if_pos hcond]

/-- A stale cached envelope used by the C1 witness (its `expiresAt`
stamp of 1000 ms is long past the witness's clock of 1000000 ms). -/
def sampleStale : SResp :=
  ⟨true, "https://signed/old", "f.mp3", "audio/mpeg", 7200, 1000, false⟩

/-- A still-fresh cached envelope used by the C1 witness (its
`expiresAt` of 10^9 ms is far beyond the clock plus buffer). -/
def sampleFresh : SResp :=
  ⟨true, "https://signed/new", "f.mp3", "audio/mpeg", 7200, 1000000000, false⟩

/-- C1 witness: the freshness theorem applied at a concrete stale entry
(miss and both-tier removal) and at a concrete fresh entry (hit with
`fromCache` overwritten). -/
theorem claim_C1_read_freshness_witness :
    ((readSignedUrlCachePath 1000000 none
      ⟨[("r2:get:b:f.mp3", ⟨sampleStale, 0⟩)], 0, 0, 5000⟩ "r2:get:b:f.mp3").1 = none ∧
    ncLookup (readSignedUrlCachePath 1000000 none
      ⟨[("r2:get:b:f.mp3", ⟨sampleStale, 0⟩)], 0, 0, 5000⟩ "r2:get:b:f.mp3").2.2
      "r2:get:b:f.mp3" = none ∧
    redisLookup (readSignedUrlCachePath 1000000 none
      ⟨[("r2:get:b:f.mp3", ⟨sampleStale, 0⟩)], 0, 0, 5000⟩ "r2:get:b:f.mp3").2.1
      "r2:get:b:f.mp3" = none) ∧
    (readSignedUrlCachePath 1000000 none
      ⟨[("r2:get:b:f.mp3", ⟨sampleFresh, 0⟩)], 0, 0, 5000⟩ "r2:get:b:f.mp3").1 =
      some { sampleFresh with fromCache := true } :=
  ⟨(claim_C1_read_freshness 1000000 none
      ⟨[("r2:get:b:f.mp3", ⟨sampleStale, 0⟩)], 0, 0, 5000⟩ "r2:get:b:f.mp3"
      sampleStale (by decide) (by decide)).1 (by decide),
   (claim_C1_read_freshness 1000000 none
      ⟨[("r2:get:b:f.mp3", ⟨sampleFresh, 0⟩)], 0, 0, 5000⟩ "r2:get:b:f.mp3"
      sampleFresh (by decide) (by decide)).2 (by decide)⟩

/-- C10: after the storage delete succeeds, `DELETE /deleteFile`
removes the `r2:get:BUCKET:sanitizedFile` cache entry from both tiers
before the success response is returned, a subsequent service read of
that key misses, and every other key is untouched in both tiers (stated
for a distributed tier that is absent, or connected with a delete that
does not reject). -/
theorem claim_C10_delete_invalidation (bucket : String)
    (ro : Option (RedisState SResp)) (m : NCState SResp) (file : String)
    (now : Int) (hdel : redisDelHealthy ro = true) :
    ncLookup (deleteFileInvalidate bucket ro m file).2
      (generateCacheKey bucket (sanitizeFile file) "get") = none ∧
    redisLookup (deleteFileInvalidate bucket ro m file).1
      (generateCacheKey bucket (sanitizeFile file) "get") = none ∧
    (cacheGet (fun _ => true) now (deleteFileInvalidate bucket ro m file).1
      (deleteFileInvalidate bucket ro m file).2
      (generateCacheKey bucket (sanitizeFile file) "get")).1 = none ∧
    (∀ k, ¬ (generateCacheKey bucket (sanitizeFile file) "get") = k →
      ncLookup (deleteFileInvalidate bucket ro m file).2 k = ncLookup m k ∧
      redisLookup (deleteFileInvalidate bucket ro m file).1 k = redisLookup ro k) := by
  have h1 := cacheDel_mem_healthy ro m
    (generateCacheKey bucket (sanitizeFile file) "get") hdel
  have h2 := cacheDel_redis_healthy ro m
    (generateCacheKey bucket (sanitizeFile file) "get") hdel
  refine ⟨h1, h2, cacheGet_miss_of_absent _ now _ _ _ h1 h2, ?_⟩
  intro k hk
  exact ⟨cacheDel_mem_ne ro m _ k hk, cacheDel_redis_ne ro m _ k hk⟩

/-- C10 witness: the delete-invalidation theorem applied at a concrete
memory tier holding the deleted file's entry and one unrelated entry. -/
theorem claim_C10_delete_invalidation_witness :
    ncLookup (deleteFileInvalidate "b" none
      ⟨[("r2:get:b:x.jpg", ⟨sampleFresh, 0⟩), ("zkey", ⟨sampleFresh, 0⟩)],
        0, 0, 5000⟩ "x.jpg").2 "r2:get:b:x.jpg" = none ∧
    redisLookup (deleteFileInvalidate "b" none
      ⟨[("r2:get:b:x.jpg", ⟨sampleFresh, 0⟩), ("zkey", ⟨sampleFresh, 0⟩)],
        0, 0, 5000⟩ "x.jpg").1 "r2:get:b:x.jpg" = none ∧
    (cacheGet (fun _ => true) 0 (deleteFileInvalidate "b" none
      ⟨[("r2:get:b:x.jpg", ⟨sampleFresh, 0⟩), ("zkey", ⟨sampleFresh, 0⟩)],
        0, 0, 5000⟩ "x.jpg").1
      (deleteFileInvalidate "b" none
      ⟨[("r2:get:b:x.jpg", ⟨sampleFresh, 0⟩), ("zkey", ⟨sampleFresh, 0⟩)],
        0, 0, 5000⟩ "x.jpg").2 "r2:get:b:x.jpg").1 = none ∧
    ncLookup (deleteFileInvalidate "b" none
      ⟨[("r2:get:b:x.jpg", ⟨sampleFresh, 0⟩), ("zkey", ⟨sampleFresh, 0⟩)],
        0, 0, 5000⟩ "x.jpg").2 "zkey" =
      ncLookup (⟨[("r2:get:b:x.jpg", ⟨sampleFresh, 0⟩), ("zkey", ⟨sampleFresh, 0⟩)],
        0, 0, 5000⟩ : NCState SResp) "zkey" := by
  have h := claim_C10_delete_invalidation "b" none
    ⟨[("r2:get:b:x.jpg", ⟨sampleFresh, 0⟩), ("zkey", ⟨sampleFresh, 0⟩)],
      0, 0, 5000⟩ "x.jpg" 0 (by decide)
  exact ⟨h.1, h.2.1, h.2.2.1, (h.2.2.2 "zkey" (by decide)).1⟩

/-- C7: every entry created by the `GET /getSignedUrl` issuance flow on
a cache miss carries `expiresAt` equal to the expiry instant the
storage-signing primitive signed for — `now + SIGNED_URL_EXPIRY·1000`,
derived from the very `expiresIn` window passed to the primitive — for
every cache-TTL configuration; the cache layer never substitutes its
own expiry.  (The returned envelope and the value handed to
`CacheService.set` are one and the same object in the source.) -/
theorem claim_C7_expiry_derivation (cfg : Config) (sign : Int → Int → String → String)
    (now : Int) (ro : Option (RedisState SResp)) (m : NCState SResp)
    (san key : String) :
    (getSignedUrlMissPath cfg sign now ro m san key).1.expiresAt =
      signPrimitiveExpiry now cfg.signedUrlExpiry ∧
    (getSignedUrlMissPath cfg sign now ro m san key).1.expiresIn =
      cfg.signedUrlExpiry ∧
    (getSignedUrlMissPath cfg sign now ro m san key).1.fromCache = false := by
  rcases hs : cacheSet now ro m key
      ({ success := true
         signedUrl := sign now cfg.signedUrlExpiry san
         file := san
         contentType := contentTypeFor san
         expiresIn := cfg.signedUrlExpiry
         expiresAt := now + cfg.signedUrlExpiry * 1000
         fromCache := false } : SResp) cfg.cacheTTL with ⟨ro', m'⟩
  refine ⟨?_, ?_, ?_⟩ <;> simp [getSignedUrlMissPath, hs, signPrimitiveExpiry]

theorem bool_not_true {b : Bool} (h : (!b) = true) : b = false := by
  cases b
  · rfl
  · exact absurd h (by decide)

theorem noTwoDots_tail (c : Char) (l : List Char) (h : noTwoDots (c :: l) = true) :
    noTwoDots l = true := by
  cases l with
  | nil => rfl
  | cons b rest =>
      rw [noTwoDots, Bool.and_eq_true] at h
      exact h.2

theorem noTwoDots_cons (a : Char) (l : List Char)
    (h1 : noTwoDots l = true)
    (h2 : ∀ e t, l = e :: t → (a == '.' && e == '.') = false) :
    noTwoDots (a :: l) = true := by
  cases l with
  | nil => rfl
  | cons e t =>
      rw [noTwoDots, h2 e t rfl, h1]
      rfl

theorem removeDotDot_head (b : Char) (rest : List Char) :
    (∃ t, removeDotDot (b :: rest) = b :: t) ∨
    (b = '.' ∧ ∃ r, rest = '.' :: r) := by
  cases rest with
  | nil => exact Or.inl ⟨[], rfl⟩
  | cons d r =>
      by_cases h : b == '.' && d == '.'
      · simp only [Bool.and_eq_true, beq_iff_eq] at h
        exact Or.inr ⟨h.1, r, by rw [h.2]⟩
      · exact Or.inl ⟨removeDotDot (d :: r), by simp [removeDotDot, h]⟩

theorem removeDotDot_noTwoDots : ∀ l : List Char, noTwoDots (removeDotDot l) = true
  | [] => rfl
  | [c] => rfl
  | a :: b :: rest => by
      by_cases h : a == '.' && b == '.'
      · rw [show removeDotDot (a :: b :: rest) = removeDotDot rest by
          simp [removeDotDot, h]]
        exact removeDotDot_noTwoDots rest
      · rw [show removeDotDot (a :: b :: rest) = a :: removeDotDot (b :: rest) by
          simp [removeDotDot, h]]
        have ih := removeDotDot_noTwoDots (b :: rest)
        apply noTwoDots_cons a _ ih
        intro e t het
        rcases removeDotDot_head b rest with ⟨t', ht'⟩ | ⟨hb, r, hr⟩
        · rw [ht'] at het
          have hbe : e = b := (List.cons.injEq .. ▸ het).1.symm
          subst hbe
          simpa using h
        · subst hb
          have ha : (a == '.') = false := by
            by_cases hc : a == '.'
            · rw [hc] at h
              simp at h
            · simpa using hc
          simp [ha]

theorem noTwoDots_dropWhile (p : Char → Bool) :
    ∀ l : List Char, noTwoDots l = true → noTwoDots (l.dropWhile p) = true
  | [], _ => rfl
  | c :: rest, h => by
      by_cases hp : p c
      · rw [List.dropWhile_cons_of_pos hp]
        exact noTwoDots_dropWhile p rest (noTwoDots_tail c rest h)
      · rw [List.dropWhile_cons_of_neg hp]
        exact h

theorem dropEndWhile_shape (p : Char → Bool) (l : List Char) :
    dropEndWhile p l = [] ∨
    (∃ c t t', l = c :: t ∧ dropEndWhile p l = c :: t') := by
  cases l with
  | nil => exact Or.inl rfl
  | cons c rest =>
      by_cases h : (dropEndWhile p rest).isEmpty && p c
      · exact Or.inl (by simp [dropEndWhile, h])
      · exact Or.inr ⟨c, rest, dropEndWhile p rest, rfl, by simp [dropEndWhile, h]⟩

theorem noTwoDots_dropEndWhile (p : Char → Bool) :
    ∀ l : List Char, noTwoDots l = true → noTwoDots (dropEndWhile p l) = true
  | [], _ => rfl
  | c :: rest, h => by
      have ih := noTwoDots_dropEndWhile p rest (noTwoDots_tail c rest h)
      by_cases hc : (dropEndWhile p rest).isEmpty && p c
      · rw [show dropEndWhile p (c :: rest) = [] by simp [dropEndWhile, hc]]
        rfl
      · rw [show dropEndWhile p (c :: rest) = c :: dropEndWhile p rest by
          simp [dropEndWhile, hc]]
        apply noTwoDots_cons c _ ih
        intro e t het
        rcases dropEndWhile_shape p rest with hnil | ⟨e', t', t'', hrest, hdrop⟩
        · rw [hnil] at het
          cases het
        · rw [hdrop] at het
          have hee : e = e' := (List.cons.injEq .. ▸ het).1.symm
          subst hee
          rw [hrest] at h
          cases t' with
          | nil =>
              rw [show noTwoDots (c :: [e]) =
                  (!(c == '.' && e == '.') && noTwoDots [e]) from rfl,
                Bool.and_eq_true] at h
              exact bool_not_true h.1
          | cons x xs =>
              rw [show noTwoDots (c :: e :: x :: xs) =
                  (!(c == '.' && e == '.') && noTwoDots (e :: x :: xs)) from rfl,
                Bool.and_eq_true] at h
              exact bool_not_true h.1

theorem includesL_dd_eq_false : ∀ l : List Char, noTwoDots l = true →
    includesL l ['.', '.'] = false
  | [], _ => rfl
  | c :: rest, h => by
      have ih := includesL_dd_eq_false rest (noTwoDots_tail c rest h)
      cases rest with
      | nil =>
          rw [includesL, ih]
          cases hc : c == '.' <;> simp [startsWithL, hc]
      | cons e t =>
          have h1 : (c == '.' && e == '.') = false := by
            rw [show noTwoDots (c :: e :: t) =
                (!(c == '.' && e == '.') && noTwoDots (e :: t)) from rfl,
              Bool.and_eq_true] at h
            exact bool_not_true h.1
          rw [includesL, ih]
          rw [show startsWithL (c :: e :: t) ['.', '.'] =
              (c == '.' && (e == '.' && startsWithL t [])) from rfl]
          rw [show startsWithL t [] = true by cases t <;> rfl]
          simp only [Bool.and_true, h1]
          rfl

/-- C9: the sanitized path used for cache-key derivation and the
storage call in the file-accepting endpoints is exactly the input with
all non-overlapping `..` occurrences removed and surrounding whitespace
trimmed, and this sanitized path never contains `..` as a substring:
deleting dot pairs cannot make two surviving dots adjacent, because
every maximal dot run keeps at most one (final) dot and the non-dot
separators all survive. -/
theorem claim_C9_sanitizer (f : String) :
    sanitizeFile f = String.mk (jsTrimL (removeDotDot f.data)) ∧
    jsIncludes (sanitizeFile f) ".." = false := by
  refine ⟨rfl, ?_⟩
  have h1 := removeDotDot_noTwoDots f.data
  have h2 := noTwoDots_dropWhile isJsWhite _ h1
  have h3 := noTwoDots_dropEndWhile isJsWhite _ h2
  exact includesL_dd_eq_false _ h3

theorem redisSetEx_ok {V : Type} {r : RedisState V} {now : Int} {k : String}
    {v : V} {ttl : Int} {r' : RedisState V}
    (h : redisSetEx r now k v ttl = Except.ok r') :
    r.failWrite = false ∧
    r' = { r with data := listPut r.data k ⟨v, now + ttl * 1000⟩ } := by
  by_cases hf : r.failWrite
  · rw [redisSetEx, if_pos hf] at h
    cases h
  · rw [redisSetEx, if_neg hf] at h
    injection h with h2
    exact ⟨by simpa using hf, h2.symm⟩

theorem cacheSet_healthy_eq {V : Type} (now : Int) (r : RedisState V) (m : NCState V)
    (k : String) (v : V) (ttl : Int)
    (hr : r.isReady = true) (hfw : r.failWrite = false)
    (hcap : ¬ (m.maxKeys > -1 ∧ (m.data.length : Int) ≥ m.maxKeys)) :
    cacheSet now (some r) m k v ttl =
      (some { r with data := listPut r.data k ⟨v, now + ttl * 1000⟩ },
       { m with data := listPut m.data k ⟨v, ncWrapT now ttl⟩ }) := by
  simp [cacheSet, hr, redisSetEx, hfw, ncSet, hcap]

theorem cacheSet_other {V : Type} (now : Int) (ro : Option (RedisState V))
    (m : NCState V) (k' : String) (v : V) (ttl : Int) (k : String)
    (hne : ¬ k' = k) :
    ncLookup (cacheSet now ro m k' v ttl).2 k = ncLookup m k ∧
    redisLookup (cacheSet now ro m k' v ttl).1 k = redisLookup ro k := by
  have hbe : (k' == k) = false := by simpa [beq_eq_false_iff_ne] using hne
  constructor
  · rcases cacheSet_mem_cases now ro m k' v ttl with h | h
    · rw [h]
    · rcases ncSet_eq_some h with ⟨_, heq⟩
      rw [heq]
      show listGet (listPut m.data k' _) k = listGet m.data k
      exact listGet_listPut_ne m.data k k' _ hbe
  · match ro with
    | none =>
        rcases hs : ncSet now m k' v ttl with _ | m2 <;> simp [cacheSet, hs]
    | some r =>
        by_cases hr : r.isReady
        · cases hw : redisSetEx r now k' v ttl with
          | error e => simp [cacheSet, hr, hw]
          | ok r' =>
              rcases redisSetEx_ok hw with ⟨_, hr'⟩
              subst hr'
              have hput : listGet (listPut r.data k' ⟨v, now + ttl * 1000⟩) k =
                  listGet r.data k := listGet_listPut_ne r.data k k' _ hbe
              rcases hs : ncSet now m k' v ttl with _ | m2 <;>
                simp [cacheSet, hr, hw, hs, redisLookup, hput]
        · rcases hs : ncSet now m k' v ttl with _ | m2 <;> simp [cacheSet, hr, hs]


theorem cacheSet_redis_flags {V : Type} (now : Int) (r : RedisState V) (m : NCState V)
    (k : String) (v : V) (ttl : Int) :
    ∃ r', (cacheSet now (some r) m k v ttl).1 = some r' ∧
      r'.isReady = r.isReady ∧ r'.failGet = r.failGet ∧
      r'.failWrite = r.failWrite := by
  by_cases hr : r.isReady
  · cases hw : redisSetEx r now k v ttl with
    | error e => exact ⟨r, by simp [cacheSet, hr, hw], rfl, rfl, rfl⟩
    | ok r' =>
        rcases redisSetEx_ok hw with ⟨_, hr'⟩
        rcases hs : ncSet now m k v ttl with _ | m2
        · exact ⟨r', by simp [cacheSet, hr, hw, hs],
            by rw [hr'], by rw [hr'], by rw [hr']⟩
        · exact ⟨r', by simp [cacheSet, hr, hw, hs],
            by rw [hr'], by rw [hr'], by rw [hr']⟩
  · rcases hs : ncSet now m k v ttl with _ | m2 <;>
      exact ⟨r, by simp [cacheSet, hr, hs], rfl, rfl, rfl⟩

theorem cacheSetFallback_preserves {V : Type} (now ttl : Int) :
    ∀ (entries : List (String × V)) (ro : Option (RedisState V)) (m : NCState V)
      (k : String), ¬ k ∈ entries.map (fun kv => kv.1) →
      ncLookup (cacheSetFallback now ttl (ro, m) entries).2 k = ncLookup m k ∧
      redisLookup (cacheSetFallback now ttl (ro, m) entries).1 k = redisLookup ro k
  | [], ro, m, k, _ => ⟨rfl, rfl⟩
  | (k', v') :: rest, ro, m, k, hmem => by
      have hmem2 : ¬ (k = k' ∨ k ∈ rest.map (fun kv => kv.1)) := by
        simpa only [List.map_cons, List.mem_cons] using hmem
      push_neg at hmem2
      have hstep := cacheSet_other now ro m k' v' ttl k (fun e => hmem2.1 e.symm)
      have hrec := cacheSetFallback_preserves now ttl rest
        (cacheSet now ro m k' v' ttl).1 (cacheSet now ro m k' v' ttl).2 k hmem2.2
      have hfold : cacheSetFallback now ttl (ro, m) ((k', v') :: rest) =
          cacheSetFallback now ttl
            ((cacheSet now ro m k' v' ttl).1, (cacheSet now ro m k' v' ttl).2)
            rest := rfl
      rw [hfold]
      exact ⟨hrec.1.trans hstep.1, hrec.2.trans hstep.2⟩

theorem cacheSetFallback_healthy {V : Type} (now ttl : Int) :
    ∀ (entries : List (String × V)) (r : RedisState V) (m : NCState V),
    r.isReady = true → r.failWrite = false →
    (m.maxKeys > -1 → (m.data.length : Int) + entries.length ≤ m.maxKeys) →
    ((entries.map (fun kv => kv.1)).Nodup) →
    ∀ kv, kv ∈ entries →
      ncLookup (cacheSetFallback now ttl (some r, m) entries).2 kv.1 =
        some ⟨kv.2, ncWrapT now ttl⟩ ∧
      redisLookup (cacheSetFallback now ttl (some r, m) entries).1 kv.1 =
        some ⟨kv.2, now + ttl * 1000⟩
  | [], r, m, _, _, _, _, kv, hkv => absurd hkv (by simp)
  | (k', v') :: rest, r, m, hr, hfw, hcap, hnd, kv, hkv => by
      have hcap1 : ¬ (m.maxKeys > -1 ∧ (m.data.length : Int) ≥ m.maxKeys) := by
        intro hc
        have h2 := hcap hc.1
        simp only [List.length_cons] at h2
        have h3 : ((rest.length + 1 : Nat) : Int) = (rest.length : Int) + 1 := by
          push_cast
          ring
        omega
      have hstep := cacheSet_healthy_eq now r m k' v' ttl hr hfw hcap1
      have hfold : cacheSetFallback now ttl (some r, m) ((k', v') :: rest) =
          cacheSetFallback now ttl
            (some { r with data := listPut r.data k' ⟨v', now + ttl * 1000⟩ },
             { m with data := listPut m.data k' ⟨v', ncWrapT now ttl⟩ }) rest := by
        have h0 : cacheSetFallback now ttl (some r, m) ((k', v') :: rest) =
            cacheSetFallback now ttl (cacheSet now (some r) m k' v' ttl) rest := rfl
        rw [h0, hstep]
      have hndc : (k' :: rest.map (fun kv => kv.1)).Nodup := by
        simpa only [List.map_cons] using hnd
      have hnd2 := List.nodup_cons.1 hndc
      rcases List.mem_cons.1 hkv with hkv1 | hkv2
      · subst hkv1
        have hpres := cacheSetFallback_preserves now ttl rest
          (some { r with data := listPut r.data k' ⟨v', now + ttl * 1000⟩ })
          { m with data := listPut m.data k' ⟨v', ncWrapT now ttl⟩ } k' hnd2.1
        constructor
        · have h2 : ncLookup ({ m with
              data := listPut m.data k' ⟨v', ncWrapT now ttl⟩ } : NCState V) k' =
              some ⟨v', ncWrapT now ttl⟩ := by
            show listGet (listPut m.data k' _) k' = _
            rw [listGet_listPut_self]
          exact (hfold ▸ hpres.1.trans h2 : _)
        · have h2 : redisLookup (some ({ r with
              data := listPut r.data k' ⟨v', now + ttl * 1000⟩ } : RedisState V)) k' =
              some ⟨v', now + ttl * 1000⟩ := by
            show listGet (listPut r.data k' _) k' = _
            rw [listGet_listPut_self]
          exact (hfold ▸ hpres.2.trans h2 : _)
      · have hlen2 : (listPut m.data k' ⟨v', ncWrapT now ttl⟩).length ≤
            m.data.length + 1 := listPut_length_le m.data k' _
        have hcap2 : ({ m with data := listPut m.data k' ⟨v', ncWrapT now ttl⟩ } :
            NCState V).maxKeys > -1 →
            ((({ m with data := listPut m.data k' ⟨v', ncWrapT now ttl⟩ } :
              NCState V).data.length : Int) + rest.length ≤
              ({ m with data := listPut m.data k' ⟨v', ncWrapT now ttl⟩ } :
                NCState V).maxKeys) := by
          show m.maxKeys > -1 →
            (((listPut m.data k' ⟨v', ncWrapT now ttl⟩).length : Int) +
              rest.length ≤ m.maxKeys)
          intro hmk
          have h2 := hcap hmk
          simp only [List.length_cons] at h2
          have h3 : ((listPut m.data k' ⟨v', ncWrapT now ttl⟩).length : Int) ≤
              (m.data.length : Int) + 1 := by exact_mod_cast hlen2
          omega
        rw [hfold]
        exact cacheSetFallback_healthy now ttl rest
          { r with data := listPut r.data k' ⟨v', now + ttl * 1000⟩ }
          { m with data := listPut m.data k' ⟨v', ncWrapT now ttl⟩ }
          hr hfw hcap2 hnd2.2 kv hkv2

theorem cacheSetFallback_flags {V : Type} (now ttl : Int) :
    ∀ (entries : List (String × V)) (r : RedisState V) (m : NCState V),
    ∃ r', (cacheSetFallback now ttl (some r, m) entries).1 = some r' ∧
      r'.isReady = r.isReady ∧ r'.failGet = r.failGet
  | [], r, m => ⟨r, rfl, rfl, rfl⟩
  | (k', v') :: rest, r, m => by
      rcases cacheSet_redis_flags now r m k' v' ttl with ⟨r1, h1, hready1, hfg1, _⟩
      have hfold : cacheSetFallback now ttl (some r, m) ((k', v') :: rest) =
          cacheSetFallback now ttl
            ((cacheSet now (some r) m k' v' ttl).1,
             (cacheSet now (some r) m k' v' ttl).2) rest := rfl
      rcases cacheSetFallback_flags now ttl rest r1
        (cacheSet now (some r) m k' v' ttl).2 with ⟨r2, h2, hready2, hfg2⟩
      refine ⟨r2, ?_, hready2.trans hready1, hfg2.trans hfg1⟩
      rw [hfold, h1]
      exact h2

theorem cacheGet_redis_hit {V : Type} (t : V → Bool) (now : Int) (r : RedisState V)
    (m : NCState V) (k : String) (v : V) (texp : Int)
    (hr : r.isReady = true) (hfg : r.failGet = false)
    (hdata : listGet r.data k = some ⟨v, texp⟩) (hvalid : now < texp)
    (ht : t v = true) :
    (cacheGet t now (some r) m k).1 = some v := by
  simp [cacheGet, hr, redisGet, hfg, hdata, hvalid, ht]

/-- C3 counterexample: one-entry batch, distributed tier ready but
failing both its pipeline and its single writes (a dead connection).
The pipeline exec rejects, `setBatch` falls back to per-entry
`CacheService.set`, whose memory write is skipped when its own Redis
write rejects — so the entry lands in neither tier and a subsequent
read misses, refuting "all N entries are retrievable … even when the
distributed tier's pipelined write fails". -/
theorem claim_C3_batch_counterexample :
    ncLookupVal ((cacheSetBatch 0
      (some ⟨true, false, true, false, true, []⟩ : Option (RedisState String))
      ⟨[], 0, 0, 5000⟩ [("k", "v")] 3600).2) "k" = none ∧
    redisLookupVal ((cacheSetBatch 0
      (some ⟨true, false, true, false, true, []⟩ : Option (RedisState String))
      ⟨[], 0, 0, 5000⟩ [("k", "v")] 3600).1) "k" = none ∧
    (cacheGet (fun v => !v.isEmpty) 0
      ((cacheSetBatch 0
        (some ⟨true, false, true, false, true, []⟩ : Option (RedisState String))
        ⟨[], 0, 0, 5000⟩ [("k", "v")] 3600).1)
      ((cacheSetBatch 0
        (some ⟨true, false, true, false, true, []⟩ : Option (RedisState String))
        ⟨[], 0, 0, 5000⟩ [("k", "v")] 3600).2) "k").1 = (none : Option String) := by
  refine ⟨?_, ?_, ?_⟩ <;> decide

/-- C3 amended: when the distributed pipeline write fails, the batch
write falls back to per-entry `CacheService.set` over all entries; if
those per-entry distributed writes succeed and the memory tier has room
for the whole (distinct-key) batch, every entry lands in the local tier
with the batch TTL and is retrievable via a subsequent
`CacheService.get`.  (Without these provisos entries can be lost — see
the counterexample.) -/
theorem claim_C3_batch_amended {V : Type} (t : V → Bool) (now ttl : Int)
    (entries : List (String × V)) (r : RedisState V) (m : NCState V)
    (hr : r.isReady = true) (hfp : r.failPipeline = true)
    (hfw : r.failWrite = false) (hfg : r.failGet = false)
    (hcap : m.maxKeys > -1 → (m.data.length : Int) + entries.length ≤ m.maxKeys)
    (hnd : (entries.map (fun kv => kv.1)).Nodup)
    (httl : 0 < ttl) (htr : ∀ kv, kv ∈ entries → t kv.2 = true) :
    ∀ kv, kv ∈ entries →
      ncLookupVal (cacheSetBatch now (some r) m entries ttl).2 kv.1 = some kv.2 ∧
      (cacheGet t now (cacheSetBatch now (some r) m entries ttl).1
        (cacheSetBatch now (some r) m entries ttl).2 kv.1).1 = some kv.2 := by
  intro kv hkv
  have hlen : 0 < entries.length :=
    List.length_pos.2 (by rintro rfl; cases hkv)
  have hbatch : cacheSetBatch now (some r) m entries ttl =
      cacheSetFallback now ttl (some r, m) entries := by
    simp [cacheSetBatch, hr, hlen, redisPipelineSetEx, hfp]
  rw [hbatch]
  have hmain := cacheSetFallback_healthy now ttl entries r m hr hfw hcap hnd kv hkv
  constructor
  · simp [ncLookupVal, hmain.1]
  · rcases cacheSetFallback_flags now ttl entries r m with ⟨r', hfst, hready', hfg'⟩
    have hdata : listGet r'.data kv.1 = some ⟨kv.2, now + ttl * 1000⟩ := by
      have h2 := hmain.2
      rw [hfst] at h2
      exact h2
    rw [hfst]
    exact cacheGet_redis_hit t now r' _ kv.1 kv.2 (now + ttl * 1000)
      (by rw [hready']; exact hr) (by rw [hfg']; exact hfg) hdata (by omega)
      (htr kv hkv)

/-- C3 witness: the amended batch theorem applied at a one-entry batch
against a ready distributed tier whose pipeline fails but whose single
writes succeed: the entry is in the local tier and readable. -/
theorem claim_C3_batch_amended_witness :
    ncLookupVal ((cacheSetBatch 0
      (some ⟨true, false, false, false, true, []⟩ : Option (RedisState String))
      ⟨[], 0, 0, 5000⟩ [("k", "v")] 3600).2) "k" = some "v" ∧
    (cacheGet (fun v => !v.isEmpty) 0
      ((cacheSetBatch 0
        (some ⟨true, false, false, false, true, []⟩ : Option (RedisState String))
        ⟨[], 0, 0, 5000⟩ [("k", "v")] 3600).1)
      ((cacheSetBatch 0
        (some ⟨true, false, false, false, true, []⟩ : Option (RedisState String))
        ⟨[], 0, 0, 5000⟩ [("k", "v")] 3600).2) "k").1 = some "v" :=
  claim_C3_batch_amended (fun v => !v.isEmpty) 0 3600 [("k", "v")]
    ⟨true, false, false, false, true, []⟩ ⟨[], 0, 0, 5000⟩ rfl rfl rfl rfl
    (by intro h; decide) (by decide) (by decide)
    (by
      intro kv hkv
      rw [List.mem_singleton] at hkv
      subst hkv
      decide)
    ("k", "v") (by decide)


/-- The distributed store after one `setEx` of entry `e` under `k`
(abbreviation for stating C8). -/
def redisPut {V : Type} (r : RedisState V) (k : String) (e : RedisEntry V) :
    RedisState V :=
  { r with data := listPut r.data k e }

/-- The response envelope the miss path of `GET /getSignedUrl` builds at
instant `t0` for the sanitized path `san` (abbreviation for stating
C8). -/
def issuedResp (cfg : Config) (sign : Int → Int → String → String) (t0 : Int)
    (san : String) : SResp :=
  ⟨true, sign t0 cfg.signedUrlExpiry san, san, contentTypeFor san,
    cfg.signedUrlExpiry, t0 + cfg.signedUrlExpiry * 1000, false⟩

theorem redisPut_lookup {V : Type} (r : RedisState V) (k : String)
    (e : RedisEntry V) : listGet (redisPut r k e).data k = some e := by
  simp [redisPut, listGet_listPut_self]

theorem missPath_resp (cfg : Config) (sign : Int → Int → String → String)
    (now : Int) (ro : Option (RedisState SResp)) (m : NCState SResp)
    (san key : String) :
    (getSignedUrlMissPath cfg sign now ro m san key).1 =
      issuedResp cfg sign now san := by
  rcases h : cacheSet now ro m key (issuedResp cfg sign now san) cfg.cacheTTL
    with ⟨a, b⟩
  simp only [issuedResp] at h
  simp [getSignedUrlMissPath, h, issuedResp]

theorem missPath_redis (cfg : Config) (sign : Int → Int → String → String)
    (now : Int) (r : RedisState SResp) (m : NCState SResp) (san key : String)
    (hready : r.isReady = true) (hfw : r.failWrite = false) :
    (getSignedUrlMissPath cfg sign now (some r) m san key).2.1 =
      some (redisPut r key
        ⟨issuedResp cfg sign now san, now + cfg.cacheTTL * 1000⟩) := by
  rcases hs : ncSet now m key (issuedResp cfg sign now san) cfg.cacheTTL
    with _ | m2
  all_goals
    simp only [issuedResp] at hs
    simp [getSignedUrlMissPath, cacheSet, hready, redisSetEx, hfw, hs,
      redisPut, issuedResp]

/-- C8: issuing the same (operation, bucket, path) twice within the
cache TTL, with no invalidation in between and the first result still
outside the safety buffer, makes the second call a cache hit: its
`fromCache` flag is `true` and its URL is identical to the first call's
URL — even though the envelope stored by the first call carries
`fromCache = false`, which the read path overwrites at hit time (stated
for a connected, non-failing distributed tier and a key absent before
the first call). -/
theorem claim_C8_idempotent_issue (cfg : Config)
    (sign : Int → Int → String → String) (t0 t1 : Int) (r : RedisState SResp)
    (m : NCState SResp) (file : String)
    (hready : r.isReady = true) (hfg : r.failGet = false)
    (hfw : r.failWrite = false)
    (habsr : listGet r.data
      (generateCacheKey cfg.bucket (sanitizeFile file) "get") = none)
    (habsm : ncLookup m
      (generateCacheKey cfg.bucket (sanitizeFile file) "get") = none)
    (httl : t1 < t0 + cfg.cacheTTL * 1000)
    (hfresh : t1 < t0 + cfg.signedUrlExpiry * 1000 - bufferMs) :
    (getSignedUrlHandler cfg sign t1
        (getSignedUrlHandler cfg sign t0 (some r) m file).2.1
        (getSignedUrlHandler cfg sign t0 (some r) m file).2.2 file).1.fromCache =
      true ∧
    (getSignedUrlHandler cfg sign t1
        (getSignedUrlHandler cfg sign t0 (some r) m file).2.1
        (getSignedUrlHandler cfg sign t0 (some r) m file).2.2 file).1.signedUrl =
      (getSignedUrlHandler cfg sign t0 (some r) m file).1.signedUrl ∧
    (redisLookup (getSignedUrlHandler cfg sign t0 (some r) m file).2.1
        (generateCacheKey cfg.bucket (sanitizeFile file) "get")).map
      (fun e => e.val.fromCache) = some false := by
  have hget1 : cacheGet (fun _ => true) t0 (some r) m
      (generateCacheKey cfg.bucket (sanitizeFile file) "get") =
      (none, some r, { m with misses := m.misses + 1 }) := by
    simp [cacheGet, hready, redisGet, hfg, habsr, cacheGetMem, ncGet, habsm]
  have hread1 : readSignedUrlCachePath t0 (some r) m
      (generateCacheKey cfg.bucket (sanitizeFile file) "get") =
      (none, some r, { m with misses := m.misses + 1 }) := by
    simp [readSignedUrlCachePath, hget1]
  have hh1 : getSignedUrlHandler cfg sign t0 (some r) m file =
      getSignedUrlMissPath cfg sign t0 (some r) { m with misses := m.misses + 1 }
        (sanitizeFile file)
        (generateCacheKey cfg.bucket (sanitizeFile file) "get") := by
    simp [getSignedUrlHandler, hread1]
  have hh1resp : (getSignedUrlHandler cfg sign t0 (some r) m file).1 =
      issuedResp cfg sign t0 (sanitizeFile file) := by
    rw [hh1]
    exact missPath_resp cfg sign t0 (some r) _ _ _
  have hh1redis : (getSignedUrlHandler cfg sign t0 (some r) m file).2.1 =
      some (redisPut r (generateCacheKey cfg.bucket (sanitizeFile file) "get")
        ⟨issuedResp cfg sign t0 (sanitizeFile file),
          t0 + cfg.cacheTTL * 1000⟩) := by
    rw [hh1]
    exact missPath_redis cfg sign t0 r _ _ _ hready hfw
  have hcall2 : ∀ m' : NCState SResp,
      (getSignedUrlHandler cfg sign t1
        (some (redisPut r (generateCacheKey cfg.bucket (sanitizeFile file) "get")
          ⟨issuedResp cfg sign t0 (sanitizeFile file),
            t0 + cfg.cacheTTL * 1000⟩)) m' file).1.fromCache = true ∧
      (getSignedUrlHandler cfg sign t1
        (some (redisPut r (generateCacheKey cfg.bucket (sanitizeFile file) "get")
          ⟨issuedResp cfg sign t0 (sanitizeFile file),
            t0 + cfg.cacheTTL * 1000⟩)) m' file).1.signedUrl =
        (issuedResp cfg sign t0 (sanitizeFile file)).signedUrl := by
    intro m'
    have hput := redisPut_lookup r
      (generateCacheKey cfg.bucket (sanitizeFile file) "get")
      ⟨issuedResp cfg sign t0 (sanitizeFile file), t0 + cfg.cacheTTL * 1000⟩
    have hget2 : cacheGet (fun _ => true) t1
        (some (redisPut r (generateCacheKey cfg.bucket (sanitizeFile file) "get")
          ⟨issuedResp cfg sign t0 (sanitizeFile file),
            t0 + cfg.cacheTTL * 1000⟩)) m'
        (generateCacheKey cfg.bucket (sanitizeFile file) "get") =
        (some (issuedResp cfg sign t0 (sanitizeFile file)),
         some (redisPut r (generateCacheKey cfg.bucket (sanitizeFile file) "get")
          ⟨issuedResp cfg sign t0 (sanitizeFile file),
            t0 + cfg.cacheTTL * 1000⟩), m') := by
      simp only [cacheGet, redisGet, redisPut, hready, hfg]
      simp [listGet_listPut_self, httl]
    have hread2 : readSignedUrlCachePath t1
        (some (redisPut r (generateCacheKey cfg.bucket (sanitizeFile file) "get")
          ⟨issuedResp cfg sign t0 (sanitizeFile file),
            t0 + cfg.cacheTTL * 1000⟩)) m'
        (generateCacheKey cfg.bucket (sanitizeFile file) "get") =
        (some { issuedResp cfg sign t0 (sanitizeFile file) with fromCache := true },
         some (redisPut r (generateCacheKey cfg.bucket (sanitizeFile file) "get")
          ⟨issuedResp cfg sign t0 (sanitizeFile file),
            t0 + cfg.cacheTTL * 1000⟩), m') := by
      have hcond : t1 <
          (issuedResp cfg sign t0 (sanitizeFile file)).expiresAt - bufferMs := by
        simp only [issuedResp]
        omega
      simp [readSignedUrlCachePath, hget2, hcond]
    constructor
    · simp [getSignedUrlHandler, hread2]
    · simp [getSignedUrlHandler, hread2]
  refine ⟨?_, ?_, ?_⟩
  · rw [hh1redis]
    exact (hcall2 ((getSignedUrlHandler cfg sign t0 (some r) m file).2.2)).1
  · rw [hh1redis, hh1resp]
    exact (hcall2 ((getSignedUrlHandler cfg sign t0 (some r) m file).2.2)).2
  · rw [hh1redis]
    show (listGet (redisPut r
        (generateCacheKey cfg.bucket (sanitizeFile file) "get")
        ⟨issuedResp cfg sign t0 (sanitizeFile file),
          t0 + cfg.cacheTTL * 1000⟩).data
        (generateCacheKey cfg.bucket (sanitizeFile file) "get")).map
      (fun e => e.val.fromCache) = some false
    rw [redisPut_lookup]
    rfl

/-- C8 witness: the double-issuance theorem applied at the default
configuration, a time-dependent signer, an empty connected distributed
tier, an empty memory tier, and the path `books/a.mp3`, with the second
call 1 second after the first. -/
theorem claim_C8_idempotent_issue_witness :
    (getSignedUrlHandler defaultConfig
        (fun t _ _ => if t = 0 then "https://u0" else "https://u1") 1000
        (getSignedUrlHandler defaultConfig
          (fun t _ _ => if t = 0 then "https://u0" else "https://u1") 0
          (some ⟨true, false, false, false, false, []⟩)
          ⟨[], 0, 0, 5000⟩ "books/a.mp3").2.1
        (getSignedUrlHandler defaultConfig
          (fun t _ _ => if t = 0 then "https://u0" else "https://u1") 0
          (some ⟨true, false, false, false, false, []⟩)
          ⟨[], 0, 0, 5000⟩ "books/a.mp3").2.2 "books/a.mp3").1.fromCache = true ∧
    (getSignedUrlHandler defaultConfig
        (fun t _ _ => if t = 0 then "https://u0" else "https://u1") 1000
        (getSignedUrlHandler defaultConfig
          (fun t _ _ => if t = 0 then "https://u0" else "https://u1") 0
          (some ⟨true, false, false, false, false, []⟩)
          ⟨[], 0, 0, 5000⟩ "books/a.mp3").2.1
        (getSignedUrlHandler defaultConfig
          (fun t _ _ => if t = 0 then "https://u0" else "https://u1") 0
          (some ⟨true, false, false, false, false, []⟩)
          ⟨[], 0, 0, 5000⟩ "books/a.mp3").2.2 "books/a.mp3").1.signedUrl =
      (getSignedUrlHandler defaultConfig
          (fun t _ _ => if t = 0 then "https://u0" else "https://u1") 0
          (some ⟨true, false, false, false, false, []⟩)
          ⟨[], 0, 0, 5000⟩ "books/a.mp3").1.signedUrl ∧
    (redisLookup (getSignedUrlHandler defaultConfig
          (fun t _ _ => if t = 0 then "https://u0" else "https://u1") 0
          (some ⟨true, false, false, false, false, []⟩)
          ⟨[], 0, 0, 5000⟩ "books/a.mp3").2.1
        (generateCacheKey defaultConfig.bucket (sanitizeFile "books/a.mp3")
          "get")).map (fun e => e.val.fromCache) = some false :=
  claim_C8_idempotent_issue defaultConfig
    (fun t _ _ => if t = 0 then "https://u0" else "https://u1") 0 1000
    ⟨true, false, false, false, false, []⟩ ⟨[], 0, 0, 5000⟩ "books/a.mp3"
    rfl rfl rfl (by decide) (by decide) (by decide) (by decide)
